import Mathlib

/-!
Verification of the article-splitting pipeline of `split_articles.py`.

Strings are modelled as lists of Unicode characters (`List Char`), matching
Python's view of `str` as a sequence of code points.  The concrete regular
expressions used by the program are embedded as deterministic matching
functions; this is faithful because every quantified subpattern in those
regexes (`\s+`, `\s*`, `\d+`, `№?`) is followed by a construct drawn from a
disjoint character class, so the backtracking engine's greedy strategy never
needs to backtrack and leftmost/first-alternative semantics coincide with the
deterministic parse implemented here.
-/

namespace SplitArticles

abbrev Str := List Char

/-- Character-wise lower-casing covering the scripts that occur in the
program's regex literals: ASCII `A`-`Z` and the Cyrillic range `А`-`Я`
(U+0410-U+042F), each at distance 32 from its lowercase form.  This mirrors
what `re.IGNORECASE` / `str.lower` do on those characters. -/
def lowerChar (c : Char) : Char :=
  if 'A' ≤ c ∧ c ≤ 'Z' then Char.ofNat (c.toNat + 32)
  else if 'А' ≤ c ∧ c ≤ 'Я' then Char.ofNat (c.toNat + 32)
  else c

def lowerS (s : Str) : Str := s.map lowerChar

/-- Whitespace class of Python's `\s` / `str.strip` (the Unicode whitespace
code points). -/
def isPySpace (c : Char) : Bool :=
  c ∈ ([' ', '\t', '\n', '\r', '\x0b', '\x0c',
        '\x1c', '\x1d', '\x1e', '\x1f', '\x85', '\xa0',
        ' ', ' ', ' ', ' ', ' ', ' ', ' ',
        ' ', ' ', ' ', ' ', ' ',
        ' ', ' ', ' ', ' ', '　'] : List Char)

/-- Decimal digits accepted by `\d` (restricted to ASCII digits, which is the
alphabet the program's number extraction actually consumes). -/
def isDigitCh (c : Char) : Bool := decide ('0' ≤ c) && decide (c ≤ '9')

/-- Character class `[\s\.\-–—:]` terminating the default heading patterns. -/
def isTermCh (c : Char) : Bool :=
  isPySpace c || c ∈ (['.', '-', '–', '—', ':'] : List Char)

/-- Word characters for `\b` (ASCII alphanumerics, underscore, and the
Cyrillic block, the scripts relevant to the program's inputs). -/
def isWordCh (c : Char) : Bool :=
  (decide ('a' ≤ c) && decide (c ≤ 'z')) ||
  (decide ('A' ≤ c) && decide (c ≤ 'Z')) ||
  isDigitCh c || decide (c = '_') ||
  (decide ('Ѐ' ≤ c) && decide (c ≤ 'ӿ'))

/-- Case-insensitive literal: if the next `kw.length` characters lower-case to
`kw`, return the remaining suffix. -/
def takeLit (kw : Str) (s : Str) : Option Str :=
  if lowerS (s.take kw.length) = kw then some (s.drop kw.length) else none

/-- First alternative of `kws` matching at the current position (regex
alternation semantics). -/
def takeAlt (kws : List Str) (s : Str) : Option Str :=
  kws.findSome? (fun k => takeLit k s)

/-- Matcher for `\s+`: at least one whitespace character. -/
def spaces1 (s : Str) : Option Str :=
  if (s.dropWhile isPySpace).length < s.length then some (s.dropWhile isPySpace) else none

/-- Matcher for `\d+`: at least one decimal digit. -/
def digits1 (s : Str) : Option Str :=
  if (s.dropWhile isDigitCh).length < s.length then some (s.dropWhile isDigitCh) else none

/-- Matcher for an optional literal character (`№?`). -/
def optChar (c : Char) : Str → Str
  | [] => []
  | x :: r => if x = c then r else x :: r

/-- Matcher for a single character from a class. -/
def oneOf (f : Char → Bool) : Str → Option Str
  | [] => none
  | x :: r => if f x then some r else none

/-- Word-boundary test `\b` placed after a digit: holds at end of string or
when the next character is not a word character. -/
def noWordAhead : Str → Bool
  | [] => true
  | c :: _ => !isWordCh c

/-- Keyword literals of the program's regexes, lower-cased:
`статья`, `стаття`, `article`. -/
def keywords : List Str :=
  [("статья").toList, ("стаття").toList, ("article").toList]

/-- A compiled pattern, abstracted as: given the suffix of the subject string
at the current position and whether that position is a line start (for the
`(?m)^` anchor), return the length of the match there, if any. -/
abbrev Pat := Str → Bool → Option Nat

/-- Pattern `(?m)^(Статья|СТАТЬЯ|Стаття|Article)\s+№?\s*\d+[\s\.\-–—:]`
(the `СТАТЬЯ` alternative is absorbed by `re.IGNORECASE`). -/
def pat1 : Pat := fun s atStart =>
  if atStart then
    (do
      let s1 ← takeAlt keywords s
      let s2 ← spaces1 s1
      let s3 := optChar '№' s2
      let s4 := s3.dropWhile isPySpace
      let s5 ← digits1 s4
      let s6 ← oneOf isTermCh s5
      pure (s.length - s6.length))
  else none

/-- Pattern `(?m)^Ст\.\?\s*\d+[\s\.\-–—:]`.  Note that `\?` in the source is
an escaped question mark, i.e. a literal `?` character. -/
def pat2 : Pat := fun s atStart =>
  if atStart then
    (do
      let s1 ← takeLit (("ст").toList) s
      let s2 ← oneOf (fun c => decide (c = '.')) s1
      let s3 ← oneOf (fun c => decide (c = '?')) s2
      let s4 := s3.dropWhile isPySpace
      let s5 ← digits1 s4
      let s6 ← oneOf isTermCh s5
      pure (s.length - s6.length))
  else none

/-- Pattern `(?m)^Статья\s+№?\s*\d+\b`. -/
def pat3 : Pat := fun s atStart =>
  if atStart then
    (do
      let s1 ← takeLit (("статья").toList) s
      let s2 ← spaces1 s1
      let s3 := optChar '№' s2
      let s4 := s3.dropWhile isPySpace
      let s5 ← digits1 s4
      if noWordAhead s5 then pure (s.length - s5.length) else none)
  else none

/-- The module-level `DEFAULT_PATTERNS` list. -/
def DEFAULT_PATTERNS : List Pat := [pat1, pat2, pat3]

/-- The pattern-list assembly performed by `main`: custom `--add-pattern`
patterns are prepended before the defaults. -/
def buildPatterns (extra : List Pat) : List Pat := extra ++ DEFAULT_PATTERNS

/-- Alternation `(?:p₁)|(?:p₂)|...` over a compiled pattern list, as built by
both detection tiers: at a fixed position the first pattern that matches
wins. -/
def compileAlt (ps : List Pat) : Pat := fun s b => ps.findSome? (fun p => p s b)

/-- Helper for `re.search`: try the pattern at every position of the subject,
threading whether the current position is a line start. -/
def reSearchAux (p : Pat) : Str → Bool → Bool
  | [], atStart => (p [] atStart).isSome
  | c :: rest, atStart => (p (c :: rest) atStart).isSome || reSearchAux p rest (decide (c = '\n'))

/-- `re.search`: does the pattern match anywhere in the subject? -/
def reSearch (p : Pat) (s : Str) : Bool := reSearchAux p s true

/-- Helper for `re.finditer`, fuel-indexed so it is structurally recursive:
scan the subject left to right; at a match of length `n`, record the current
position and resume after the match (Python resumes one character later when
the match is empty, hence `max n 1`); otherwise advance one character.  The
line-start flag for the next position is recomputed from the last character
passed over. -/
def finditerFuel (p : Pat) : Nat → Str → Nat → Bool → List Nat
  | 0, _, _, _ => []
  | _ + 1, [], pos, atStart => if (p [] atStart).isSome then [pos] else []
  | fuel + 1, c :: rest, pos, atStart =>
    match p (c :: rest) atStart with
    | some n =>
      let step := max n 1
      pos :: finditerFuel p fuel ((c :: rest).drop step) (pos + step)
        (decide (((c :: rest).take step).getLast? = some '\n'))
    | none => finditerFuel p fuel rest (pos + 1) (decide (c = '\n'))

/-- `re.finditer`: the list of match start offsets, in order.  The initial
fuel `s.length + 1` is enough for the whole scan, since every recursive call
shortens the subject. -/
def finditer (p : Pat) (s : Str) : List Nat := finditerFuel p (s.length + 1) s 0 true

/-- A loaded paragraph: the dict `{"text", "style", "is_bold"}` produced by
`paragraphs_to_text`. -/
structure Para where
  text : Str
  style : Str
  is_bold : Bool
deriving DecidableEq

/-- Span attributes beyond header/text, i.e. the extra dictionary keys a
produced article carries: `start_para`/`end_para` from the paragraph tier,
`start_char`/`end_char` from the flattened-text tier, or the `fallback`
flag. -/
inductive ArtMeta
  | paraSpan (start_para end_para : Nat)
  | charSpan (start_char end_char : Nat)
  | fallback
deriving DecidableEq

/-- An article produced by a detection tier. -/
structure Article where
  header : Str
  text : Str
  meta : ArtMeta
deriving DecidableEq

/-- Substring test: does `pat` occur contiguously inside `s`? -/
def containsSub (pat : Str) : Str → Bool
  | [] => decide (pat = [])
  | s@(_ :: rest) => decide (s.take pat.length = pat) || containsSub pat rest

/-- Search for `re.search(r'статья|стаття|article', txt, re.I)`: one of the
keywords occurs case-insensitively anywhere in the text. -/
def kwAnywhere (t : Str) : Bool := keywords.any (fun k => containsSub k (lowerS t))

/-- The style test `p["style"] and "heading" in p["style"].lower()`. -/
def headingStyle (st : Str) : Bool :=
  decide (st ≠ []) && containsSub (("heading").toList) (lowerS st)

/-- Matcher for `re.search(r'^\s*(Статья|Стаття|Article)\s+№?\s*\d+', txt, re.I)`
(`^` without `re.MULTILINE` anchors at the string start only). -/
def boldAnchored (t : Str) : Bool :=
  match takeAlt keywords (t.dropWhile isPySpace) with
  | none => false
  | some s2 =>
    match spaces1 s2 with
    | none => false
    | some s3 =>
      match digits1 ((optChar '№' s3).dropWhile isPySpace) with
      | none => false
      | some _ => true

/-- The per-paragraph boundary test of `split_by_paragraph_markers` (the three
`if ... continue` branches combine to a disjunction). -/
def is_marker (ps : List Pat) (p : Para) : Bool :=
  (headingStyle p.style && kwAnywhere p.text) ||
  (p.is_bold && boldAnchored p.text) ||
  reSearch (compileAlt ps) p.text

/-- The `boundaries` list: indices of paragraphs passing the marker test. -/
def boundaryIdxs (ps : List Pat) (paras : List Para) : List Nat :=
  ((paras.enum).filter (fun ip => is_marker ps ip.2)).map (fun ip => ip.1)

/-- Python slice `l[a:b]`. -/
def pySlice (l : List α) (a b : Nat) : List α := (l.drop a).take (b - a)

/-- `"\n".join(...)`. -/
def joinNL : List Str → Str
  | [] => []
  | [t] => t
  | t :: u :: ts => t ++ '\n' :: joinNL (u :: ts)

/-- Python `str.strip()`: remove whitespace from both ends. -/
def pyStrip (s : Str) : Str :=
  ((s.dropWhile isPySpace).reverse.dropWhile isPySpace).reverse

/-- `text.split("\n", 1)[0]`: the prefix up to the first newline. -/
def firstLine (s : Str) : Str := s.takeWhile (fun c => decide (c ≠ '\n'))

/-- Line-break characters recognised by `str.splitlines`. -/
def isLineBreakCh (c : Char) : Bool :=
  c ∈ (['\n', '\r', '\x0b', '\x0c', '\x1c', '\x1d', '\x1e', '\x85',
        ' ', ' '] : List Char)

/-- `chunk.splitlines()[0] if chunk.splitlines() else ""`. -/
def firstLineSL (s : Str) : Str := s.takeWhile (fun c => !isLineBreakCh c)

def defaultPara : Para := ⟨[], [], false⟩

/-- Body of the span-building loop of `split_by_paragraph_markers`, applied to
one enumerated boundary `(i, start_idx)`: `end_idx` is `boundaries[i+1]` when
that exists and `len(paras)` otherwise, the chunk is the paragraph texts of
`paras[start_idx:end_idx]` joined with newline and stripped, and the header is
the first line of `paras[start_idx]`'s text. -/
def mkParaSpan (paras : List Para) (bs : List Nat) (ib : Nat × Nat) : Article :=
  let start_idx := ib.2
  let end_idx := bs.getD (ib.1 + 1) paras.length
  { header := firstLine ((paras.getD start_idx defaultPara).text),
    text := pyStrip (joinNL (pySlice (paras.map (fun p => p.text)) start_idx end_idx)),
    meta := .paraSpan start_idx (end_idx - 1) }

/-- The paragraph-marker tier `split_by_paragraph_markers`: `none` models the
Python `None` return (and the falsiness test `if articles:` in the caller,
since a non-`None` result is always a non-empty list). -/
def split_by_paragraph_markers (paras : List Para) (ps : List Pat) : Option (List Article) :=
  let bs := boundaryIdxs ps paras
  if bs = [] then none
  else some (bs.enum.map (mkParaSpan paras bs))

/-- Body of the span-building loop of `split_by_text_regex`, applied to one
enumerated match start `(i, start)`. -/
def mkCharSpan (full : Str) (ms : List Nat) (im : Nat × Nat) : Article :=
  let start := im.2
  let en := ms.getD (im.1 + 1) full.length
  let chunk := pyStrip (pySlice full start en)
  { header := firstLineSL chunk, text := chunk, meta := .charSpan start en }

/-- The flattened-text tier `split_by_text_regex`. -/
def split_by_text_regex (full : Str) (ps : List Pat) : Option (List Article) :=
  let ms := finditer (compileAlt ps) full
  if ms = [] then none
  else some (ms.enum.map (mkCharSpan full ms))

/-- `"\n".join(p["text"] for p in paras)`. -/
def fullTextOf (paras : List Para) : Str := joinNL (paras.map (fun p => p.text))

def fullDocHeader : Str := ("(full document)").toList

/-- The tier chain of `extract_articles_from_docx`, starting from the loaded
paragraph list. -/
def extract_articles (paras : List Para) (ps : List Pat) : List Article :=
  match split_by_paragraph_markers paras ps with
  | some arts => arts
  | none =>
    match split_by_text_regex (fullTextOf paras) ps with
    | some arts => arts
    | none => [{ header := fullDocHeader, text := fullTextOf paras, meta := .fallback }]

/-- An output JSONL record, one per line written by `save_articles_jsonl`. -/
structure Rec where
  id : Str
  article_number : Str
  title : Str
  text : Str
  source_file : Str
  meta : ArtMeta
deriving DecidableEq

def natStr (n : Nat) : Str := (toString n).toList

/-- Match of `(?:Статья|Стаття|Article)\s+№?\s*(\d+)` at the current
position, returning the content of the capturing group `(\d+)`. -/
def numAt (s : Str) : Option Str := do
  let s1 ← takeAlt keywords s
  let s2 ← spaces1 s1
  let s3 := optChar '№' s2
  let s4 := s3.dropWhile isPySpace
  let ds := s4.takeWhile isDigitCh
  if ds = [] then none else pure ds

/-- `re.search` for the article-number regex: leftmost position wins. -/
def artNumSearch : Str → Option Str
  | [] => numAt []
  | s@(_ :: rest) => (numAt s).orElse (fun _ => artNumSearch rest)

/-- The record built for article `a` at 1-based position `i1` inside
`save_articles_jsonl` (`base` is the source-file stem). -/
def mkRec (base source : Str) (i1 : Nat) (a : Article) : Rec :=
  let num := (artNumSearch a.header).getD (natStr i1)
  { id := base ++ ("_article_").toList ++ num,
    article_number := num,
    title := a.header,
    text := a.text,
    source_file := source,
    meta := a.meta }

/-- The records appended by one run of `save_articles_jsonl`, in order
(`enumerate(articles, start=1)`). -/
def mkRecords (articles : List Article) (base source : Str) : List Rec :=
  articles.enum.map (fun ia => mkRec base source (ia.1 + 1) ia.2)

/-- `save_articles_jsonl` as a transformation of the output file's contents:
the file is opened with mode `"a"`, so the new records are appended after
whatever lines the file already holds. -/
def save_articles_jsonl (existing : List Rec) (articles : List Article)
    (base source : Str) : List Rec :=
  existing ++ mkRecords articles base source

/-- Exceptions relevant to the driver: a regex-compilation error raised by
`re.compile` and a document-load error raised by `Document(path)`. -/
inductive PyErr
  | regexError
  | loadError
deriving DecidableEq

/-- `split_by_paragraph_markers` with the `re.compile` call made explicit:
the compiled pattern list `cps` is an `Except` because compilation happens
inside this function and raises there when a configured pattern is
malformed. -/
def split_by_paragraph_markersE (paras : List Para) (cps : Except PyErr (List Pat)) :
    Except PyErr (Option (List Article)) := do
  let ps ← cps
  pure (split_by_paragraph_markers paras ps)

/-- `split_by_text_regex` with its own `re.compile` call made explicit. -/
def split_by_text_regexE (full : Str) (cps : Except PyErr (List Pat)) :
    Except PyErr (Option (List Article)) := do
  let ps ← cps
  pure (split_by_text_regex full ps)

/-- `extract_articles_from_docx` with its fallible steps explicit: loading
the document may raise, and each tier's pattern compilation may raise. -/
def extract_articlesE (doc : Except PyErr (List Para)) (cps : Except PyErr (List Pat)) :
    Except PyErr (List Article) := do
  let paras ← doc
  match ← split_by_paragraph_markersE paras cps with
  | some arts => pure arts
  | none =>
    match ← split_by_text_regexE (fullTextOf paras) cps with
    | some arts => pure arts
    | none => pure [{ header := fullDocHeader, text := fullTextOf paras, meta := .fallback }]

/-- Outcome of one iteration of the `process_dir` loop: either the success
print with the number of saved records, or the `except Exception` branch that
logs the error and continues. -/
inductive FileResult
  | saved (n : Nat)
  | errorLogged (e : PyErr)
deriving DecidableEq

/-- The `process_dir` loop over the already-globbed document list: each
file is processed under `try`, and any exception is caught, logged and the
loop continues with the next file. -/
def process_dir (docs : List (Except PyErr (List Para))) (cps : Except PyErr (List Pat)) :
    List FileResult :=
  docs.map (fun d =>
    match extract_articlesE d cps with
    | .ok arts => .saved arts.length
    | .error e => .errorLogged e)

def defaultArticle : Article := { header := [], text := [], meta := .fallback }

def defaultRec : Rec :=
  { id := [], article_number := [], title := [], text := [], source_file := [], meta := .fallback }

/-- Recorded start index of a span's meta attributes. -/
def metaStart : ArtMeta → Nat
  | .paraSpan s _ => s
  | .charSpan s _ => s
  | .fallback => 0

/-- Recorded end index of a span's meta attributes. -/
def metaEnd : ArtMeta → Nat
  | .paraSpan _ e => e
  | .charSpan _ e => e
  | .fallback => 0

/-- Claim-worded property (C5): the recorded end index of each span equals the
recorded start index of the next span. -/
def recEndsMatchStarts (arts : List Article) : Bool :=
  (arts.zip (arts.drop 1)).all (fun ab => decide (metaEnd ab.1.meta = metaStart ab.2.meta))

/-- Claim-worded pattern (C2 (b), as the claim states it): the text starts
with a keyword followed by an optional `№`, optional whitespace, and a
decimal number — with no whitespace required after the keyword. -/
def specBoldStart (t : Str) : Bool :=
  match takeAlt keywords t with
  | none => false
  | some s1 =>
    match digits1 ((optChar '№' s1).dropWhile isPySpace) with
    | none => false
    | some _ => true

/-- Claim-worded per-paragraph boundary condition of C2, as stated. -/
def spec_is_marker (ps : List Pat) (p : Para) : Bool :=
  (containsSub (("heading").toList) (lowerS p.style) && kwAnywhere p.text) ||
  (p.is_bold && specBoldStart p.text) ||
  reSearch (compileAlt ps) p.text

/-- Claim-worded pattern (C6): the line begins with `Ст.` (case-insensitive)
followed by optional whitespace, a decimal number, and a terminator. -/
def specStAbbrev (t : Str) : Bool :=
  match takeLit (("ст").toList) t with
  | none => false
  | some s1 =>
    match oneOf (fun c => decide (c = '.')) s1 with
    | none => false
    | some s2 =>
      match digits1 (s2.dropWhile isPySpace) with
      | none => false
      | some s3 => (oneOf isTermCh s3).isSome

/-- Declarative reading of the bold-tier regex
`^\s*(Статья|Стаття|Article)\s+№?\s*\d+` (amended C2 (b)): optional leading
whitespace, a keyword (case-insensitive), at least one whitespace character,
an optional `№`, optional whitespace, then a decimal digit. -/
def boldStartProp (t : Str) : Prop :=
  ∃ (sp kw ws opt ws2 : Str) (d : Char) (rest : Str),
    t = sp ++ kw ++ ws ++ opt ++ ws2 ++ d :: rest ∧
    (∀ c ∈ sp, isPySpace c = true) ∧
    lowerS kw ∈ keywords ∧
    ws ≠ [] ∧ (∀ c ∈ ws, isPySpace c = true) ∧
    (opt = [] ∨ opt = [('№' : Char)]) ∧
    (∀ c ∈ ws2, isPySpace c = true) ∧
    isDigitCh d = true

theorem split_para_eq {paras : List Para} {ps : List Pat} {arts : List Article}
    (h : split_by_paragraph_markers paras ps = some arts) :
    boundaryIdxs ps paras ≠ [] ∧
    arts = (boundaryIdxs ps paras).enum.map (mkParaSpan paras (boundaryIdxs ps paras)) := by
  by_cases hbs : boundaryIdxs ps paras = [] <;>
    simp only [split_by_paragraph_markers, hbs, if_true, if_false,
      reduceCtorEq, Option.some.injEq] at h
  exact ⟨hbs, h.symm⟩

theorem split_text_eq {full : Str} {ps : List Pat} {arts : List Article}
    (h : split_by_text_regex full ps = some arts) :
    finditer (compileAlt ps) full ≠ [] ∧
    arts = (finditer (compileAlt ps) full).enum.map (mkCharSpan full (finditer (compileAlt ps) full)) := by
  by_cases hms : finditer (compileAlt ps) full = [] <;>
    simp only [split_by_text_regex, hms, if_true, if_false,
      reduceCtorEq, Option.some.injEq] at h
  exact ⟨hms, h.symm⟩

theorem split_para_ne_nil {paras : List Para} {ps : List Pat} {arts : List Article}
    (h : split_by_paragraph_markers paras ps = some arts) : arts ≠ [] := by
  obtain ⟨hbs, rfl⟩ := split_para_eq h
  simpa using hbs

theorem split_text_ne_nil {full : Str} {ps : List Pat} {arts : List Article}
    (h : split_by_text_regex full ps = some arts) : arts ≠ [] := by
  obtain ⟨hms, rfl⟩ := split_text_eq h
  simpa using hms

/-- C1: boundary detection is a first-success-wins fallback chain: the result
of the paragraph-marker tier, when present, is returned as is (so the
flattened-text tier is consulted only when the paragraph tier found no
spans); when both tiers yield nothing, the result is exactly one record with
header `"(full document)"` and the fallback marker in its meta; the result is
always exactly one tier's output, never a combination. -/
theorem C1_tier_fallback_chain (ps : List Pat) (paras : List Para) :
    (∀ arts, split_by_paragraph_markers paras ps = some arts →
      extract_articles paras ps = arts) ∧
    (split_by_paragraph_markers paras ps = none →
      ∀ arts, split_by_text_regex (fullTextOf paras) ps = some arts →
        extract_articles paras ps = arts) ∧
    (split_by_paragraph_markers paras ps = none →
      split_by_text_regex (fullTextOf paras) ps = none →
      extract_articles paras ps =
        [{ header := fullDocHeader, text := fullTextOf paras, meta := .fallback }]) := by
  refine ⟨fun arts h => ?_, fun h1 arts h2 => ?_, fun h1 h2 => ?_⟩ <;>
    simp [extract_articles, *]

theorem C1_tier_fallback_chain_witness :
    split_by_paragraph_markers [⟨("hello").toList, [], false⟩] DEFAULT_PATTERNS = none ∧
    split_by_text_regex (fullTextOf [⟨("hello").toList, [], false⟩]) DEFAULT_PATTERNS = none ∧
    extract_articles [⟨("hello").toList, [], false⟩] DEFAULT_PATTERNS =
      [{ header := fullDocHeader, text := fullTextOf [⟨("hello").toList, [], false⟩],
         meta := .fallback }] :=
  ⟨by decide, by decide,
    (C1_tier_fallback_chain DEFAULT_PATTERNS [⟨("hello").toList, [], false⟩]).2.2
      (by decide) (by decide)⟩

/-- C10: `extract_articles_from_docx` never returns an empty article list; in
particular a document with zero non-empty paragraphs produces exactly the one
fallback record with header `"(full document)"` and empty text. -/
theorem C10_never_empty (ps : List Pat) (paras : List Para) :
    extract_articles paras ps ≠ [] ∧
    extract_articles [] DEFAULT_PATTERNS =
      [{ header := fullDocHeader, text := [], meta := .fallback }] := by
  constructor
  · unfold extract_articles
    cases h1 : split_by_paragraph_markers paras ps with
    | some arts => exact split_para_ne_nil h1
    | none =>
      cases h2 : split_by_text_regex (fullTextOf paras) ps with
      | some arts => exact split_text_ne_nil h2
      | none => simp
  · decide

/-- C9: serialization is append-only: one run leaves the existing file
content in place and appends the new records after it, so two successive
runs on the same articles yield the first run's content followed by the same
records again — the existing content is always a prefix of the result, never
overwritten. -/
theorem C9_append_only (existing : List Rec) (articles : List Article) (base source : Str) :
    save_articles_jsonl existing articles base source =
      existing ++ mkRecords articles base source ∧
    save_articles_jsonl (save_articles_jsonl existing articles base source) articles base source =
      existing ++ (mkRecords articles base source ++ mkRecords articles base source) ∧
    existing <+: save_articles_jsonl existing articles base source :=
  ⟨rfl, by simp [save_articles_jsonl], ⟨mkRecords articles base source, rfl⟩⟩

/-- C7: `main` passes the detector the custom patterns prepended before the
three default patterns, and in the combined alternation built by the tiers
the custom patterns are tried first: any match of a custom pattern takes
precedence over the defaults. -/
theorem C7_custom_patterns_first (extra : List Pat) :
    buildPatterns extra = extra ++ DEFAULT_PATTERNS ∧
    DEFAULT_PATTERNS = [pat1, pat2, pat3] ∧
    (∀ s b, compileAlt (buildPatterns extra) s b =
      (compileAlt extra s b).or (compileAlt DEFAULT_PATTERNS s b)) ∧
    (∀ s b r, compileAlt extra s b = some r → compileAlt (buildPatterns extra) s b = some r) := by
  refine ⟨rfl, rfl, fun s b => ?_, fun s b r h => ?_⟩
  · simp [compileAlt, buildPatterns, List.findSome?_append]
  · simp [compileAlt, buildPatterns, List.findSome?_append]
    simp only [compileAlt] at h
    simp [h]

theorem C7_custom_patterns_first_witness :
    compileAlt (buildPatterns [fun s _ => if s.length = 1 then some 1 else none])
      (("x").toList) true = some 1 :=
  (C7_custom_patterns_first [fun s _ => if s.length = 1 then some 1 else none]).2.2.2
    (("x").toList) true 1 (by decide)

/-- C6: evaluation of the default pattern set at the abbreviated-keyword
heading `"Ст. 5."`.  The line satisfies the claimed shape (`Ст.` + optional
whitespace + number + terminator), yet no default pattern matches it — not in
a paragraph, not in the flattened text — because the second default pattern
`^Ст\.\?\s*\d+...` contains `\.\?`, a literal dot followed by a literal
question mark, so only the unintended text `"Ст.? 5."` matches it.  This
contradicts both the claim and the pattern's own source comment `# "Ст. 1."`. -/
theorem C6_st_abbreviation_not_matched :
    specStAbbrev (("Ст. 5.").toList) = true ∧
    reSearch (compileAlt DEFAULT_PATTERNS) (("Ст. 5.").toList) = false ∧
    is_marker DEFAULT_PATTERNS ⟨("Ст. 5.").toList, [], false⟩ = false ∧
    finditer (compileAlt DEFAULT_PATTERNS) (("Ст. 5.").toList) = [] ∧
    reSearch (compileAlt DEFAULT_PATTERNS) (("Ст.? 5.").toList) = true := by
  refine ⟨by decide, by decide, by decide, by decide, by decide⟩

/-- C8 counterexample: a pattern-compilation error is not an uncaught
start-up failure.  With one input file and a malformed configured pattern
(modelled as `Except.error regexError` for the `re.compile` result), the
per-file `try/except` of `process_dir` catches the error raised during that
file's processing and logs it, and the loop completes normally. -/
theorem C8_compile_error_caught_cex :
    process_dir [.ok [⟨("hello").toList, [], false⟩]] (.error .regexError) =
      [.errorLogged .regexError] := by decide

/-- C8 (amended): a malformed configured regex does not fail at start-up;
`re.compile` runs inside per-file processing, so the error is raised anew for
every file, caught by the per-file handler and logged (load failures keep
their own error), and the batch always runs to completion over all files. -/
theorem C8_compile_error_per_file (docs : List (Except PyErr (List Para))) :
    process_dir docs (.error .regexError) =
      docs.map (fun d =>
        match d with
        | .ok _ => FileResult.errorLogged .regexError
        | .error e => FileResult.errorLogged e) ∧
    (process_dir docs (.error .regexError)).length = docs.length := by
  constructor
  · refine List.map_congr_left (fun d _ => ?_)
    cases d <;> rfl
  · simp [process_dir]

theorem mkRecords_getD (arts : List Article) (base source : Str) (i : Nat)
    (h : i < arts.length) :
    (mkRecords arts base source).getD i defaultRec =
      mkRec base source (i + 1) (arts.getD i defaultArticle) := by
  have hlen : (mkRecords arts base source).length = arts.length := by
    simp [mkRecords, List.enum_length]
  rw [List.getD_eq_getElem _ _ (by rw [hlen]; exact h), List.getD_eq_getElem _ _ h]
  simp [mkRecords, List.getElem_map, List.getElem_enum]

/-- C4: the serializer derives `article_number` by searching the span's
header with the keyword-number regex and taking its first capturing group,
falling back to the span's 1-based ordinal rendered as a string; the header
`"Статья № 5."` yields number `"5"`, the header `"Chapter One"` yields the
ordinal, and the record id is `<stem>_article_<number>`. -/
theorem C4_article_number_rule (arts : List Article) (base source : Str) (i : Nat)
    (h : i < arts.length) :
    ((mkRecords arts base source).getD i defaultRec).article_number =
      (artNumSearch (arts.getD i defaultArticle).header).getD (natStr (i + 1)) ∧
    ((mkRecords arts base source).getD i defaultRec).id =
      base ++ ("_article_").toList ++
        ((mkRecords arts base source).getD i defaultRec).article_number ∧
    artNumSearch (("Статья № 5.").toList) = some (("5").toList) ∧
    artNumSearch (("Chapter One").toList) = none ∧
    (mkRecords [⟨("Chapter One").toList, [], .fallback⟩] base source).map
      (fun r => r.article_number) = [("1").toList] := by
  have hnum : artNumSearch (("Chapter One").toList) = none := by decide
  refine ⟨?_, ?_, by decide, hnum, ?_⟩
  · rw [mkRecords_getD arts base source i h]; rfl
  · rw [mkRecords_getD arts base source i h]; rfl
  · have h1 : natStr 1 = ("1").toList := by decide
    simp [mkRecords, mkRec, hnum, h1]
    decide

theorem C4_article_number_rule_witness :
    (0 : Nat) < 1 ∧
    (((mkRecords [⟨("Статья № 5.").toList, ("body").toList, .fallback⟩]
        (("doc").toList) (("doc.docx").toList)).getD 0 defaultRec).article_number =
      (artNumSearch (([⟨("Статья № 5.").toList, ("body").toList,
        .fallback⟩] : List Article).getD 0 defaultArticle).header).getD (natStr (0 + 1)) ∧
     ((mkRecords [⟨("Статья № 5.").toList, ("body").toList, .fallback⟩]
        (("doc").toList) (("doc.docx").toList)).getD 0 defaultRec).id =
      (("doc").toList) ++ ("_article_").toList ++
        ((mkRecords [⟨("Статья № 5.").toList, ("body").toList, .fallback⟩]
          (("doc").toList) (("doc.docx").toList)).getD 0 defaultRec).article_number ∧
     artNumSearch (("Статья № 5.").toList) = some (("5").toList) ∧
     artNumSearch (("Chapter One").toList) = none ∧
     (mkRecords [⟨("Chapter One").toList, [], .fallback⟩]
        (("doc").toList) (("doc.docx").toList)).map
       (fun r => r.article_number) = [("1").toList]) :=
  ⟨by decide,
    C4_article_number_rule [⟨("Статья № 5.").toList, ("body").toList, .fallback⟩]
      (("doc").toList) (("doc.docx").toList) 0 (by decide)⟩

theorem boundaryIdxs_sublist_range (ps : List Pat) (paras : List Para) :
    (boundaryIdxs ps paras).Sublist (List.range paras.length) := by
  have h1 : (boundaryIdxs ps paras).Sublist (paras.enum.map Prod.fst) :=
    List.Sublist.map _ (List.filter_sublist _)
  rwa [List.enum_map_fst] at h1

theorem boundaryIdxs_pairwise (ps : List Pat) (paras : List Para) :
    List.Pairwise (· < ·) (boundaryIdxs ps paras) :=
  List.Pairwise.sublist (boundaryIdxs_sublist_range ps paras) (List.pairwise_lt_range _)

theorem boundaryIdxs_lt (ps : List Pat) (paras : List Para) :
    ∀ x ∈ boundaryIdxs ps paras, x < paras.length := by
  intro x hx
  have := (boundaryIdxs_sublist_range ps paras).mem hx
  simpa using this

theorem finditerFuel_ge (p : Pat) :
    ∀ (fuel : Nat) (s : Str) (pos : Nat) (b : Bool),
      ∀ x ∈ finditerFuel p fuel s pos b, pos ≤ x := by
  intro fuel
  induction fuel with
  | zero => intro s pos b x hx; simp [finditerFuel] at hx
  | succ n ih =>
    intro s pos b x hx
    cases s with
    | nil =>
      by_cases hp : (p [] b).isSome <;> simp [finditerFuel, hp] at hx
      omega
    | cons c rest =>
      rw [finditerFuel] at hx
      cases hm : p (c :: rest) b with
      | none =>
        simp only [hm] at hx
        have := ih rest (pos + 1) (decide (c = '\n')) x hx
        omega
      | some m =>
        simp only [hm] at hx
        rcases List.mem_cons.mp hx with rfl | hx2
        · exact Nat.le_refl _
        · have := ih _ _ _ x hx2
          have hstep : 1 ≤ max m 1 := le_max_right m 1
          omega

theorem finditerFuel_chain (p : Pat) :
    ∀ (fuel : Nat) (s : Str) (pos : Nat) (b : Bool),
      List.Chain' (· < ·) (finditerFuel p fuel s pos b) := by
  intro fuel
  induction fuel with
  | zero => intro s pos b; simp [finditerFuel]
  | succ n ih =>
    intro s pos b
    cases s with
    | nil => by_cases hp : (p [] b).isSome <;> simp [finditerFuel, hp]
    | cons c rest =>
      rw [finditerFuel]
      cases hm : p (c :: rest) b with
      | none =>
        simp only [hm]
        exact ih rest (pos + 1) (decide (c = '\n'))
      | some m =>
        simp only [hm]
        rw [List.chain'_cons']
        refine ⟨fun y hy => ?_, ih _ _ _⟩
        have hmem := List.mem_of_mem_head? hy
        have := finditerFuel_ge p n _ _ _ y hmem
        have hstep : 1 ≤ max m 1 := le_max_right m 1
        omega

theorem finditer_pairwise (p : Pat) (s : Str) :
    List.Chain' (· < ·) (finditer p s) :=
  finditerFuel_chain p (s.length + 1) s 0 true

theorem enumMap_article_getD (f : Nat × Nat → Article) (bs : List Nat) (i : Nat)
    (h : i < bs.length) :
    ((bs.enum.map f).getD i defaultArticle) = f (i, bs.getD i 0) := by
  have hlen : (bs.enum.map f).length = bs.length := by
    simp [List.enum_length]
  rw [List.getD_eq_getElem _ _ (by rw [hlen]; exact h), List.getD_eq_getElem _ _ h]
  simp [List.getElem_map, List.getElem_enum]

theorem metaStarts_of_enumMap (f : Nat × Nat → Article) (bs : List Nat)
    (hf : ∀ ib, metaStart (f ib).meta = ib.2) :
    (bs.enum.map f).map (fun a => metaStart a.meta) = bs := by
  rw [List.map_map]
  have : ((fun a => metaStart a.meta) ∘ f) = Prod.snd := by
    funext ib; exact hf ib
  rw [this, List.enum_map_snd]

/-- C5 (amended): spans are ordered by strictly increasing recorded start
position; the first recorded start is the first detected boundary; in the
paragraph tier the recorded `end_para` is inclusive — it equals the next
span's `start_para` minus one, and the last one is the last paragraph index
`len(paras) - 1`; in the flattened-text tier the recorded `end_char` is
exclusive — it equals the next span's `start_char`, and the last one is the
total text length. -/
theorem C5_spans_layout :
    (∀ (ps : List Pat) (paras : List Para) (arts : List Article),
      split_by_paragraph_markers paras ps = some arts →
      List.Chain' (· < ·) (arts.map (fun a => metaStart a.meta)) ∧
      (arts.map (fun a => metaStart a.meta)).head? = (boundaryIdxs ps paras).head? ∧
      (∀ i, i + 1 < arts.length →
        metaEnd (arts.getD i defaultArticle).meta + 1 =
          metaStart (arts.getD (i + 1) defaultArticle).meta) ∧
      (arts.map (fun a => metaEnd a.meta)).getLast? = some (paras.length - 1)) ∧
    (∀ (ps : List Pat) (full : Str) (arts : List Article),
      split_by_text_regex full ps = some arts →
      List.Chain' (· < ·) (arts.map (fun a => metaStart a.meta)) ∧
      (arts.map (fun a => metaStart a.meta)).head? = (finditer (compileAlt ps) full).head? ∧
      (∀ i, i + 1 < arts.length →
        metaEnd (arts.getD i defaultArticle).meta =
          metaStart (arts.getD (i + 1) defaultArticle).meta) ∧
      (arts.map (fun a => metaEnd a.meta)).getLast? = some full.length) := by
  constructor
  · intro ps paras arts hsplit
    obtain ⟨hbs, rfl⟩ := split_para_eq hsplit
    set bs := boundaryIdxs ps paras with hbsdef
    have hstarts : (bs.enum.map (mkParaSpan paras bs)).map (fun a => metaStart a.meta) = bs :=
      metaStarts_of_enumMap _ _ (fun ib => rfl)
    have hlen : (bs.enum.map (mkParaSpan paras bs)).length = bs.length := by
      simp [List.enum_length]
    refine ⟨?_, ?_, ?_, ?_⟩
    · rw [hstarts]
      exact (boundaryIdxs_pairwise ps paras).chain'
    · rw [hstarts]
    · intro i hi
      rw [hlen] at hi
      have h1 : i < bs.length := by omega
      rw [enumMap_article_getD _ _ _ h1, enumMap_article_getD _ _ _ hi]
      show bs.getD (i + 1) paras.length - 1 + 1 = bs.getD (i + 1) 0
      rw [List.getD_eq_getElem _ _ hi, List.getD_eq_getElem _ _ hi]
      have hpw : List.Pairwise (· < ·) bs := hbsdef ▸ boundaryIdxs_pairwise ps paras
      have hpos : 0 < bs[i + 1] := by
        have hp := List.pairwise_iff_get.mp hpw ⟨i, h1⟩ ⟨i + 1, hi⟩ (by simp)
        simp only [List.get_eq_getElem] at hp
        omega
      omega
    · have hpos0 : 0 < bs.length := List.length_pos.mpr hbs
      have hn : bs.length - 1 < bs.length := by omega
      rw [List.getLast?_eq_getElem?]
      rw [List.length_map, hlen]
      rw [List.getElem?_eq_getElem (by rw [List.length_map, hlen]; exact hn)]
      rw [List.getElem_map]
      have hgd : (bs.enum.map (mkParaSpan paras bs)).getD (bs.length - 1) defaultArticle =
          mkParaSpan paras bs (bs.length - 1, bs.getD (bs.length - 1) 0) :=
        enumMap_article_getD _ _ _ hn
      rw [List.getD_eq_getElem _ _ (by rw [hlen]; exact hn)] at hgd
      rw [hgd]
      show (some (bs.getD (bs.length - 1 + 1) paras.length - 1) : Option Nat) =
        some (paras.length - 1)
      rw [List.getD_eq_default _ _ (by omega)]
  · intro ps full arts hsplit
    obtain ⟨hms, rfl⟩ := split_text_eq hsplit
    set ms := finditer (compileAlt ps) full with hmsdef
    have hstarts : (ms.enum.map (mkCharSpan full ms)).map (fun a => metaStart a.meta) = ms :=
      metaStarts_of_enumMap _ _ (fun ib => rfl)
    have hlen : (ms.enum.map (mkCharSpan full ms)).length = ms.length := by
      simp [List.enum_length]
    refine ⟨?_, ?_, ?_, ?_⟩
    · rw [hstarts]
      exact finditer_pairwise (compileAlt ps) full
    · rw [hstarts]
    · intro i hi
      rw [hlen] at hi
      rw [enumMap_article_getD _ _ _ (by omega), enumMap_article_getD _ _ _ hi]
      show ms.getD (i + 1) full.length = ms.getD (i + 1) 0
      rw [List.getD_eq_getElem _ _ hi, List.getD_eq_getElem _ _ hi]
    · have hpos0 : 0 < ms.length := List.length_pos.mpr hms
      have hn : ms.length - 1 < ms.length := by omega
      rw [List.getLast?_eq_getElem?]
      rw [List.length_map, hlen]
      rw [List.getElem?_eq_getElem (by rw [List.length_map, hlen]; exact hn)]
      rw [List.getElem_map]
      have hgd : (ms.enum.map (mkCharSpan full ms)).getD (ms.length - 1) defaultArticle =
          mkCharSpan full ms (ms.length - 1, ms.getD (ms.length - 1) 0) :=
        enumMap_article_getD _ _ _ hn
      rw [List.getD_eq_getElem _ _ (by rw [hlen]; exact hn)] at hgd
      rw [hgd]
      show (some (ms.getD (ms.length - 1 + 1) full.length) : Option Nat) = some full.length
      rw [List.getD_eq_default _ _ (by omega)]

def exParas2 : List Para :=
  [⟨("Статья 1.").toList, [], false⟩, ⟨("Статья 2.").toList, [], false⟩]

def exArts2 : List Article :=
  [⟨("Статья 1.").toList, ("Статья 1.").toList, .paraSpan 0 0⟩,
   ⟨("Статья 2.").toList, ("Статья 2.").toList, .paraSpan 1 1⟩]

def exFull : Str := ("Статья 1. A\nbody\nСтатья 2. B").toList

def exArtsT2 : List Article :=
  [⟨("Статья 1. A").toList, ("Статья 1. A\nbody").toList, .charSpan 0 17⟩,
   ⟨("Статья 2. B").toList, ("Статья 2. B").toList, .charSpan 17 28⟩]

/-- C5 counterexample: on a two-paragraph document where both paragraphs are
detected boundaries, the paragraph tier records spans `paraSpan 0 0` and
`paraSpan 1 1` — the recorded end index of span 0 (namely `end_para = 0`,
inclusive) does not equal the recorded start index of span 1 (namely 1), so
the claim "the recorded end index of span i equals the recorded start index
of span i+1" fails for the paragraph tier. -/
theorem C5_recorded_ends_cex :
    split_by_paragraph_markers exParas2 DEFAULT_PATTERNS = some exArts2 ∧
    recEndsMatchStarts exArts2 = false ∧
    metaEnd (exArts2.getD 0 defaultArticle).meta = 0 ∧
    metaStart (exArts2.getD 1 defaultArticle).meta = 1 := by
  refine ⟨by decide, by decide, by decide, by decide⟩

theorem C5_spans_layout_witness :
    (List.Chain' (· < ·) (exArts2.map (fun a => metaStart a.meta)) ∧
     (exArts2.map (fun a => metaStart a.meta)).head? =
       (boundaryIdxs DEFAULT_PATTERNS exParas2).head? ∧
     (∀ i, i + 1 < exArts2.length →
       metaEnd (exArts2.getD i defaultArticle).meta + 1 =
         metaStart (exArts2.getD (i + 1) defaultArticle).meta) ∧
     (exArts2.map (fun a => metaEnd a.meta)).getLast? = some (exParas2.length - 1)) ∧
    (List.Chain' (· < ·) (exArtsT2.map (fun a => metaStart a.meta)) ∧
     (exArtsT2.map (fun a => metaStart a.meta)).head? =
       (finditer (compileAlt DEFAULT_PATTERNS) exFull).head? ∧
     (∀ i, i + 1 < exArtsT2.length →
       metaEnd (exArtsT2.getD i defaultArticle).meta =
         metaStart (exArtsT2.getD (i + 1) defaultArticle).meta) ∧
     (exArtsT2.map (fun a => metaEnd a.meta)).getLast? = some exFull.length) :=
  ⟨C5_spans_layout.1 DEFAULT_PATTERNS exParas2 exArts2 (by decide),
   C5_spans_layout.2 DEFAULT_PATTERNS exFull exArtsT2 (by decide)⟩

theorem containsSub_iff (pat : Str) : ∀ s : Str, containsSub pat s = true ↔ pat <:+: s := by
  intro s
  induction s with
  | nil =>
    simp only [containsSub, decide_eq_true_eq]
    constructor
    · rintro rfl; exact List.infix_rfl
    · intro h; exact List.eq_nil_of_infix_nil h
  | cons c rest ih =>
    simp only [containsSub, Bool.or_eq_true, decide_eq_true_eq, ih]
    rw [List.infix_cons_iff]
    constructor
    · rintro (h | h)
      · exact Or.inl (List.prefix_iff_eq_take.mpr h.symm)
      · exact Or.inr h
    · rintro (h | h)
      · exact Or.inl (List.prefix_iff_eq_take.mp h).symm
      · exact Or.inr h

theorem kwAnywhere_iff (t : Str) :
    kwAnywhere t = true ↔ ∃ k ∈ keywords, k <:+: lowerS t := by
  simp [kwAnywhere, List.any_eq_true, containsSub_iff]

theorem headingStyle_iff (st : Str) :
    headingStyle st = true ↔ (("heading").toList) <:+: lowerS st := by
  unfold headingStyle
  rw [Bool.and_eq_true, containsSub_iff]
  constructor
  · exact fun h => h.2
  · intro h
    refine ⟨?_, h⟩
    rcases st with _ | ⟨c, t⟩
    · exact absurd (List.eq_nil_of_infix_nil h) (by decide)
    · simp

theorem findSome?_isSome {α β : Type} (f : α → Option β) :
    ∀ l : List α, (l.findSome? f).isSome = l.any (fun a => (f a).isSome)
  | [] => rfl
  | a :: l => by
    rw [List.findSome?_cons, List.any_cons]
    cases h : f a <;> simp [h, findSome?_isSome f l]

theorem any_or_distrib {α : Type} (l : List α) (f g : α → Bool) :
    l.any (fun a => f a || g a) = (l.any f || l.any g) := by
  induction l with
  | nil => rfl
  | cons a l ih =>
    simp only [List.any_cons, ih]
    cases hf : f a <;> cases hg : g a <;> simp

theorem reSearchAux_compileAlt (ps : List Pat) :
    ∀ (s : Str) (b : Bool),
      reSearchAux (compileAlt ps) s b = ps.any (fun q => reSearchAux q s b)
  | [], b => by
    simp only [reSearchAux, compileAlt]
    exact findSome?_isSome _ ps
  | c :: rest, b => by
    simp only [reSearchAux, compileAlt]
    rw [findSome?_isSome _ ps, reSearchAux_compileAlt ps rest (decide (c = '\n'))]
    exact (any_or_distrib ps _ _).symm

theorem reSearch_compileAlt_iff (ps : List Pat) (t : Str) :
    reSearch (compileAlt ps) t = true ↔ ∃ q ∈ ps, reSearch q t = true := by
  unfold reSearch
  rw [reSearchAux_compileAlt ps t true, List.any_eq_true]

theorem lowerChar_space_eq {c : Char} (h : isPySpace c = true) : lowerChar c = c := by
  unfold isPySpace at h
  have hm := of_decide_eq_true h
  fin_cases hm <;> decide

theorem space_not_digit {c : Char} (h : isPySpace c = true) : isDigitCh c = false := by
  unfold isPySpace at h
  have hm := of_decide_eq_true h
  fin_cases hm <;> decide

theorem digit_not_space {c : Char} (h : isDigitCh c = true) : isPySpace c = false := by
  by_contra hc
  rw [Bool.not_eq_false] at hc
  rw [space_not_digit hc] at h
  exact Bool.false_ne_true h

theorem digit_ne_numero {c : Char} (h : isDigitCh c = true) : c ≠ '№' := by
  rintro rfl
  exact absurd h (by decide)

theorem numero_not_space : isPySpace '№' = false := by decide

theorem kw_head_shape {kw : Str} (hk : lowerS kw ∈ keywords) :
    ∃ c t, kw = c :: t ∧ isPySpace c = false := by
  have hk3 : lowerS kw = ("статья").toList ∨ lowerS kw = ("стаття").toList ∨
      lowerS kw = ("article").toList := by simpa [keywords] using hk
  cases kw with
  | nil => rcases hk3 with h | h | h <;> exact absurd h.symm (by decide)
  | cons c t =>
    refine ⟨c, t, rfl, ?_⟩
    by_contra hc
    rw [Bool.not_eq_false] at hc
    have hlc : lowerS (c :: t) = c :: lowerS t := by
      rw [lowerS, List.map_cons, lowerChar_space_eq hc]
      rfl
    rcases hk3 with h | h | h
    · have hh : some c = some 'с' := by
        have h0 := congrArg List.head? (hlc ▸ h)
        rwa [List.head?_cons, show (("статья").toList).head? = some 'с' from by decide] at h0
      rw [Option.some.inj hh] at hc
      exact absurd hc (by decide)
    · have hh : some c = some 'с' := by
        have h0 := congrArg List.head? (hlc ▸ h)
        rwa [List.head?_cons, show (("стаття").toList).head? = some 'с' from by decide] at h0
      rw [Option.some.inj hh] at hc
      exact absurd hc (by decide)
    · have hh : some c = some 'a' := by
        have h0 := congrArg List.head? (hlc ▸ h)
        rwa [List.head?_cons, show (("article").toList).head? = some 'a' from by decide] at h0
      rw [Option.some.inj hh] at hc
      exact absurd hc (by decide)

theorem takeLit_inv {k s r : Str} (h : takeLit k s = some r) :
    lowerS (s.take k.length) = k ∧ s = s.take k.length ++ r := by
  by_cases hc : lowerS (s.take k.length) = k
  · unfold takeLit at h
    rw [if_pos hc] at h
    injection h with h1
    subst h1
    exact ⟨hc, (List.take_append_drop k.length s).symm⟩
  · unfold takeLit at h
    rw [if_neg hc] at h
    exact absurd h (by simp)

theorem takeLit_append {kw k : Str} (h : lowerS kw = k) (tail : Str) :
    takeLit k (kw ++ tail) = some tail := by
  unfold takeLit
  have hlen : k.length = kw.length := by rw [← h, lowerS, List.length_map]
  rw [hlen, List.take_left, h, if_pos rfl, List.drop_left]

theorem takeAlt_keywords_append {kw : Str} (hk : lowerS kw ∈ keywords) (tail : Str) :
    takeAlt keywords (kw ++ tail) = some tail := by
  have hk3 : lowerS kw = ("статья").toList ∨ lowerS kw = ("стаття").toList ∨
      lowerS kw = ("article").toList := by simpa [keywords] using hk
  have hlen : kw.length = (lowerS kw).length := by rw [lowerS, List.length_map]
  show List.findSome? (fun k => takeLit k (kw ++ tail)) keywords = some tail
  rcases hk3 with h | h | h
  · rw [show keywords = ("статья").toList :: [("стаття").toList, ("article").toList] from rfl]
    rw [List.findSome?_cons, takeLit_append h]
  · have h1 : takeLit (("статья").toList) (kw ++ tail) = none := by
      unfold takeLit
      rw [if_neg]
      intro hcon
      have hl6 : kw.length = 6 := by rw [hlen, h]; decide
      rw [show ((("статья").toList) : Str).length = 6 from by decide, ← hl6,
        List.take_left, h] at hcon
      exact absurd hcon (by decide)
    rw [show keywords = ("статья").toList :: [("стаття").toList, ("article").toList] from rfl]
    rw [List.findSome?_cons, h1]
    rw [show [("стаття").toList, ("article").toList] =
      ("стаття").toList :: [("article").toList] from rfl]
    rw [List.findSome?_cons, takeLit_append h]
  · have hl7 : kw.length = 7 := by rw [hlen, h]; decide
    have htake : ∀ n : Nat, n ≤ 7 → (kw ++ tail).take n = kw.take n ++ tail.take (n - kw.length) := by
      intro n _
      exact List.take_append_eq_append_take
    have hlow : List.map lowerChar kw = ("article").toList := h
    have h1 : takeLit (("статья").toList) (kw ++ tail) = none := by
      unfold takeLit
      rw [if_neg]
      intro hcon
      rw [show ((("статья").toList) : Str).length = 6 from by decide] at hcon
      rw [htake 6 (by omega), hl7] at hcon
      rw [show (6 : Nat) - 7 = 0 from rfl, List.take_zero, List.append_nil] at hcon
      rw [show lowerS (kw.take 6) = (List.map lowerChar kw).take 6 from List.map_take ..]
        at hcon
      rw [hlow] at hcon
      exact absurd hcon (by decide)
    have h2 : takeLit (("стаття").toList) (kw ++ tail) = none := by
      unfold takeLit
      rw [if_neg]
      intro hcon
      rw [show ((("стаття").toList) : Str).length = 6 from by decide] at hcon
      rw [htake 6 (by omega), hl7] at hcon
      rw [show (6 : Nat) - 7 = 0 from rfl, List.take_zero, List.append_nil] at hcon
      rw [show lowerS (kw.take 6) = (List.map lowerChar kw).take 6 from List.map_take ..]
        at hcon
      rw [hlow] at hcon
      exact absurd hcon (by decide)
    rw [show keywords = ("статья").toList :: ("стаття").toList :: [("article").toList] from rfl]
    rw [List.findSome?_cons, h1, List.findSome?_cons, h2, List.findSome?_cons, takeLit_append h]

theorem dropWhile_length_lt_iff (p : Char → Bool) (l : Str) :
    ((l.dropWhile p).length < l.length) ↔ ∃ c t, l = c :: t ∧ p c = true := by
  cases l with
  | nil => simp
  | cons c t =>
    rw [List.dropWhile_cons]
    by_cases h : p c = true
    · simp only [if_pos h]
      constructor
      · intro _; exact ⟨c, t, rfl, h⟩
      · intro _
        exact Nat.lt_succ_of_le ((List.dropWhile_suffix p).length_le)
    · simp only [if_neg h]
      constructor
      · intro hlt; exact absurd hlt (lt_irrefl _)
      · rintro ⟨c', t', heq, hp⟩
        injection heq with h1 h2
        subst h1
        exact absurd hp h

theorem spaces1_eq_some {s r : Str} (h : spaces1 s = some r) :
    r = s.dropWhile isPySpace ∧ s.takeWhile isPySpace ≠ [] := by
  by_cases hc : (s.dropWhile isPySpace).length < s.length
  · unfold spaces1 at h
    rw [if_pos hc] at h
    injection h with h1
    refine ⟨h1.symm, ?_⟩
    intro hnil
    have hsplit := List.takeWhile_append_dropWhile isPySpace s
    rw [hnil, List.nil_append] at hsplit
    rw [hsplit] at hc
    exact absurd hc (lt_irrefl _)
  · unfold spaces1 at h
    rw [if_neg hc] at h
    exact absurd h (by simp)

theorem digits1_inv {s r : Str} (h : digits1 s = some r) :
    ∃ d t, s = d :: t ∧ isDigitCh d = true := by
  by_cases hc : (s.dropWhile isDigitCh).length < s.length
  · exact (dropWhile_length_lt_iff isDigitCh s).mp hc
  · unfold digits1 at h
    rw [if_neg hc] at h
    exact absurd h (by simp)

theorem spaces1_append_space {ws rest : Str} (hne : ws ≠ [])
    (hws : ∀ c ∈ ws, isPySpace c = true) :
    spaces1 (ws ++ rest) = some (rest.dropWhile isPySpace) := by
  have hdw : (ws ++ rest).dropWhile isPySpace = rest.dropWhile isPySpace :=
    List.dropWhile_append_of_pos hws
  unfold spaces1
  rw [hdw, if_pos]
  have h1 : (rest.dropWhile isPySpace).length ≤ rest.length :=
    (List.dropWhile_suffix isPySpace).length_le
  have h2 : 0 < ws.length := List.length_pos.mpr hne
  rw [List.length_append]
  omega

theorem digits1_cons_digit (d : Char) (rest : Str) (hd : isDigitCh d = true) :
    digits1 (d :: rest) = some ((d :: rest).dropWhile isDigitCh) := by
  unfold digits1
  rw [if_pos]
  exact (dropWhile_length_lt_iff isDigitCh (d :: rest)).mpr ⟨d, rest, rfl, hd⟩

theorem boldStartProp_of_boldAnchored {t : Str} (h : boldAnchored t = true) :
    boldStartProp t := by
  unfold boldAnchored at h
  cases h1 : takeAlt keywords (t.dropWhile isPySpace) with
  | none =>
    simp only [h1] at h
    exact absurd h (by decide)
  | some s2 =>
    simp only [h1] at h
    cases h2 : spaces1 s2 with
    | none =>
      simp only [h2] at h
      exact absurd h (by decide)
    | some s3 =>
      simp only [h2] at h
      cases h3 : digits1 ((optChar '№' s3).dropWhile isPySpace) with
      | none =>
        simp only [h3] at h
        exact absurd h (by decide)
      | some s4 =>
        clear h
        have h1' : List.findSome? (fun k => takeLit k (t.dropWhile isPySpace)) keywords =
            some s2 := h1
        obtain ⟨k, hkmem, hkl⟩ := List.exists_of_findSome?_eq_some h1'
        obtain ⟨hklow, hkeq⟩ := takeLit_inv hkl
        obtain ⟨hs3, htwne⟩ := spaces1_eq_some h2
        obtain ⟨d, t', hdt, hd⟩ := digits1_inv h3
        have ht : t = t.takeWhile isPySpace ++ t.dropWhile isPySpace :=
          (List.takeWhile_append_dropWhile isPySpace t).symm
        have hs2 : s2 = s2.takeWhile isPySpace ++ s3 := by
          rw [hs3]
          exact (List.takeWhile_append_dropWhile isPySpace s2).symm
        have hspall : ∀ c ∈ t.takeWhile isPySpace, isPySpace c = true :=
          fun c hc => List.mem_takeWhile_imp hc
        have htwall : ∀ c ∈ s2.takeWhile isPySpace, isPySpace c = true :=
          fun c hc => List.mem_takeWhile_imp hc
        have hkwmem : lowerS ((t.dropWhile isPySpace).take k.length) ∈ keywords := by
          rw [hklow]; exact hkmem
        cases s3 with
        | nil => exact absurd hdt (by simp [optChar])
        | cons x xs =>
          by_cases hx : x = '№'
          · subst hx
            have hopt : optChar '№' ('№' :: xs) = xs := by simp [optChar]
            rw [hopt] at hdt
            have hxs : xs = xs.takeWhile isPySpace ++ (d :: t') := by
              rw [← hdt]
              exact (List.takeWhile_append_dropWhile isPySpace xs).symm
            refine ⟨t.takeWhile isPySpace, (t.dropWhile isPySpace).take k.length,
              s2.takeWhile isPySpace, [('№' : Char)], xs.takeWhile isPySpace, d, t',
              ?_, hspall, hkwmem, htwne, htwall, Or.inr rfl,
              fun c hc => List.mem_takeWhile_imp hc, hd⟩
            conv_lhs => rw [ht, hkeq, hs2, hxs]
            simp [List.append_assoc]
          · have hopt : optChar '№' (x :: xs) = x :: xs := by simp [optChar, hx]
            rw [hopt] at hdt
            have hxxs : x :: xs = (x :: xs).takeWhile isPySpace ++ (d :: t') := by
              rw [← hdt]
              exact (List.takeWhile_append_dropWhile isPySpace (x :: xs)).symm
            refine ⟨t.takeWhile isPySpace, (t.dropWhile isPySpace).take k.length,
              s2.takeWhile isPySpace, [], (x :: xs).takeWhile isPySpace, d, t',
              ?_, hspall, hkwmem, htwne, htwall, Or.inl rfl,
              fun c hc => List.mem_takeWhile_imp hc, hd⟩
            conv_lhs => rw [ht, hkeq, hs2, hxxs]
            simp [List.append_assoc]

theorem boldAnchored_of_boldStartProp {t : Str} (h : boldStartProp t) :
    boldAnchored t = true := by
  obtain ⟨sp, kw, ws, opt, ws2, d, rest, heq, hsp, hkw, hwsne, hws, hopt, hws2, hd⟩ := h
  obtain ⟨c0, kt, hkweq, hc0⟩ := kw_head_shape hkw
  subst heq
  subst hkweq
  have hdrop : ((sp ++ (c0 :: kt) ++ ws ++ opt ++ ws2 ++ d :: rest).dropWhile isPySpace)
      = (c0 :: kt) ++ (ws ++ (opt ++ (ws2 ++ d :: rest))) := by
    simp only [List.append_assoc]
    rw [List.dropWhile_append_of_pos hsp]
    rw [List.cons_append, List.dropWhile_cons, if_neg (by rw [hc0]; exact Bool.false_ne_true)]
  have htA : takeAlt keywords ((c0 :: kt) ++ (ws ++ (opt ++ (ws2 ++ d :: rest)))) =
      some (ws ++ (opt ++ (ws2 ++ d :: rest))) := takeAlt_keywords_append hkw _
  have hdd : (d :: rest).dropWhile isPySpace = d :: rest := by
    rw [List.dropWhile_cons, if_neg (by rw [digit_not_space hd]; exact Bool.false_ne_true)]
  rcases hopt with rfl | rfl
  · have hsp1 : spaces1 (ws ++ ([] ++ (ws2 ++ d :: rest))) = some (d :: rest) := by
      rw [List.nil_append, spaces1_append_space hwsne hws,
        List.dropWhile_append_of_pos hws2, hdd]
    have hoc : optChar '№' (d :: rest) = d :: rest := by
      simp [optChar, digit_ne_numero hd]
    simp only [boldAnchored, hdrop, htA, hsp1, hoc, hdd, digits1_cons_digit d rest hd]
  · have hsp1 : spaces1 (ws ++ (['№'] ++ (ws2 ++ d :: rest))) = some ('№' :: (ws2 ++ d :: rest)) := by
      rw [spaces1_append_space hwsne hws]
      rw [show (['№'] ++ (ws2 ++ d :: rest) : Str) = '№' :: (ws2 ++ d :: rest) from rfl]
      rw [List.dropWhile_cons, if_neg (by rw [numero_not_space]; exact Bool.false_ne_true)]
    have hoc : optChar '№' ('№' :: (ws2 ++ d :: rest)) = ws2 ++ d :: rest := by
      simp [optChar]
    have hdw2 : (ws2 ++ d :: rest).dropWhile isPySpace = d :: rest := by
      rw [List.dropWhile_append_of_pos hws2, hdd]
    simp only [boldAnchored, hdrop, htA, hsp1, hoc, hdw2, digits1_cons_digit d rest hd]

theorem boldAnchored_iff (t : Str) : boldAnchored t = true ↔ boldStartProp t :=
  ⟨boldStartProp_of_boldAnchored, boldAnchored_of_boldStartProp⟩

theorem mem_boundaryIdxs_iff (ps : List Pat) (paras : List Para) (i : Nat)
    (h : i < paras.length) :
    i ∈ boundaryIdxs ps paras ↔ is_marker ps (paras.getD i defaultPara) = true := by
  unfold boundaryIdxs
  rw [List.mem_map]
  constructor
  · rintro ⟨ip, hmem, rfl⟩
    rw [List.mem_filter] at hmem
    obtain ⟨henum, hmark⟩ := hmem
    rw [List.mem_enum_iff_getElem?] at henum
    have hgd : paras.getD ip.1 defaultPara = ip.2 := by
      rw [List.getD_eq_getElem?_getD, henum]
      rfl
    rw [hgd]
    exact hmark
  · intro hm
    refine ⟨(i, paras.getD i defaultPara), ?_, rfl⟩
    rw [List.mem_filter]
    refine ⟨?_, hm⟩
    rw [List.mem_enum_iff_getElem?]
    rw [List.getElem?_eq_getElem h, List.getD_eq_getElem _ _ h]

theorem is_marker_iff (ps : List Pat) (p : Para) :
    is_marker ps p = true ↔
      (((("heading").toList) <:+: lowerS p.style ∧ ∃ k ∈ keywords, k <:+: lowerS p.text) ∨
       (p.is_bold = true ∧ boldStartProp p.text) ∨
       (∃ q ∈ ps, reSearch q p.text = true)) := by
  unfold is_marker
  simp only [Bool.or_eq_true, Bool.and_eq_true]
  rw [headingStyle_iff, kwAnywhere_iff, boldAnchored_iff, reSearch_compileAlt_iff]
  exact or_assoc

def exParaC2 : Para := ⟨("Статья 5.").toList, [], true⟩

/-- C2 (amended): a paragraph is marked as a boundary if and only if (a) its
style name contains "heading" case-insensitively and its text contains one of
the keywords "article"/"статья"/"стаття" case-insensitively anywhere, or
(b) its bold flag is set and its text, after optional leading whitespace,
starts with a keyword followed by at least one whitespace character, an
optional "№", optional whitespace, and a decimal digit, or (c) one of the
configured patterns matches somewhere in its text.  The claim's version of
(b), which requires no whitespace between the keyword and the number, is
refuted at the input "Статья5" by the counterexample theorem. -/
theorem C2_boundary_condition (ps : List Pat) (paras : List Para) (i : Nat)
    (h : i < paras.length) :
    i ∈ boundaryIdxs ps paras ↔
      (((("heading").toList) <:+: lowerS (paras.getD i defaultPara).style ∧
        ∃ k ∈ keywords, k <:+: lowerS (paras.getD i defaultPara).text) ∨
       ((paras.getD i defaultPara).is_bold = true ∧
        boldStartProp (paras.getD i defaultPara).text) ∨
       (∃ q ∈ ps, reSearch q (paras.getD i defaultPara).text = true)) := by
  rw [mem_boundaryIdxs_iff ps paras i h, is_marker_iff]

/-- C2 counterexample: the bold paragraph "Статья5" with style "Normal"
satisfies the claimed boundary condition — its clause (b) as stated requires
no whitespace after the keyword — yet the code does not mark it as a
boundary: the bold-branch regex demands `\s+` after the keyword, and no
default pattern matches either, so the paragraph tier finds nothing. -/
theorem C2_boundary_condition_cex :
    spec_is_marker DEFAULT_PATTERNS ⟨("Статья5").toList, ("Normal").toList, true⟩ = true ∧
    is_marker DEFAULT_PATTERNS ⟨("Статья5").toList, ("Normal").toList, true⟩ = false ∧
    split_by_paragraph_markers [⟨("Статья5").toList, ("Normal").toList, true⟩]
      DEFAULT_PATTERNS = none :=
  ⟨by decide, by decide, by decide⟩

theorem C2_boundary_condition_witness :
    (0 : Nat) < ([exParaC2] : List Para).length ∧
    (0 ∈ boundaryIdxs DEFAULT_PATTERNS [exParaC2] ↔
      (((("heading").toList) <:+: lowerS (([exParaC2] : List Para).getD 0 defaultPara).style ∧
        ∃ k ∈ keywords, k <:+: lowerS (([exParaC2] : List Para).getD 0 defaultPara).text) ∨
       ((([exParaC2] : List Para).getD 0 defaultPara).is_bold = true ∧
        boldStartProp (([exParaC2] : List Para).getD 0 defaultPara).text) ∨
       (∃ q ∈ DEFAULT_PATTERNS,
         reSearch q (([exParaC2] : List Para).getD 0 defaultPara).text = true))) :=
  ⟨by decide, C2_boundary_condition DEFAULT_PATTERNS [exParaC2] 0 (by decide)⟩

theorem firstLine_append_newline (x r : Str) :
    firstLine (x ++ '\n' :: r) = firstLine x := by
  unfold firstLine
  rw [List.takeWhile_append]
  by_cases hc : (x.takeWhile (fun c => decide (c ≠ '\n'))).length = x.length
  · rw [if_pos hc]
    have hx : x.takeWhile (fun c => decide (c ≠ '\n')) = x :=
      (List.takeWhile_prefix _).eq_of_length hc
    rw [show (('\n' :: r).takeWhile (fun c => decide (c ≠ '\n'))) = [] from by simp]
    rw [List.append_nil, hx]
  · rw [if_neg hc]

theorem stripped_facts {t : Str} (hne : t ≠ []) (hs : pyStrip t = t) :
    (∀ c, t.head? = some c → isPySpace c = false) ∧
    (∀ c, t.getLast? = some c → isPySpace c = false) := by
  have h1 : t.dropWhile isPySpace = t := by
    have hle1 : (pyStrip t).length ≤ (t.dropWhile isPySpace).length := by
      unfold pyStrip
      rw [List.length_reverse]
      calc ((t.dropWhile isPySpace).reverse.dropWhile isPySpace).length
          ≤ (t.dropWhile isPySpace).reverse.length := (List.dropWhile_suffix _).length_le
        _ = (t.dropWhile isPySpace).length := List.length_reverse _
    have hle2 : (t.dropWhile isPySpace).length ≤ t.length := (List.dropWhile_suffix _).length_le
    have heq : (t.dropWhile isPySpace).length = t.length := by
      rw [hs] at hle1; omega
    exact (List.dropWhile_suffix isPySpace).eq_of_length heq
  have h2 : t.reverse.dropWhile isPySpace = t.reverse := by
    have h0 : ((t.dropWhile isPySpace).reverse.dropWhile isPySpace).reverse = t := hs
    rw [h1] at h0
    have h0' := congrArg List.reverse h0
    rwa [List.reverse_reverse] at h0'
  constructor
  · intro c hc
    cases t with
    | nil => exact absurd rfl hne
    | cons c0 t' =>
      rw [List.head?_cons] at hc
      injection hc with hc
      subst hc
      by_contra hcsp
      rw [Bool.not_eq_false] at hcsp
      rw [List.dropWhile_cons, if_pos hcsp] at h1
      have hlen := congrArg List.length h1
      have hle := (List.dropWhile_suffix isPySpace (l := t')).length_le
      simp only [List.length_cons] at hlen
      omega
  · intro c hc
    cases hr : t.reverse with
    | nil => exact absurd (List.reverse_eq_nil_iff.mp hr) hne
    | cons c0 t' =>
      have hc' : some c = some c0 := by
        rw [← hc, ← List.head?_reverse, hr, List.head?_cons]
      injection hc' with hc'
      subst hc'
      rw [hr] at h2
      by_contra hcsp
      rw [Bool.not_eq_false] at hcsp
      rw [List.dropWhile_cons, if_pos hcsp] at h2
      have hlen := congrArg List.length h2
      have hle := (List.dropWhile_suffix isPySpace (l := t')).length_le
      simp only [List.length_cons] at hlen
      omega

theorem pyStrip_eq_self_of {l : Str}
    (hh : ∀ c, l.head? = some c → isPySpace c = false)
    (hl : ∀ c, l.getLast? = some c → isPySpace c = false) :
    pyStrip l = l := by
  have h1 : l.dropWhile isPySpace = l := by
    cases l with
    | nil => rfl
    | cons c t =>
      rw [List.dropWhile_cons, if_neg]
      rw [hh c rfl]
      exact Bool.false_ne_true
  unfold pyStrip
  rw [h1]
  have h2 : l.reverse.dropWhile isPySpace = l.reverse := by
    cases hr : l.reverse with
    | nil => rfl
    | cons c t =>
      rw [List.dropWhile_cons, if_neg]
      have hcl : l.getLast? = some c := by
        rw [← List.head?_reverse, hr, List.head?_cons]
      rw [hl c hcl]
      exact Bool.false_ne_true
  rw [h2, List.reverse_reverse]

theorem joinNL_facts : ∀ (ts : List Str), ts ≠ [] →
    (∀ t ∈ ts, t ≠ [] ∧ pyStrip t = t) →
    joinNL ts ≠ [] ∧
    (∀ c, (joinNL ts).head? = some c → isPySpace c = false) ∧
    (∀ c, (joinNL ts).getLast? = some c → isPySpace c = false)
  | [], h, _ => absurd rfl h
  | [t], _, hts => by
    obtain ⟨hne, hstr⟩ := hts t (by simp)
    exact ⟨hne, (stripped_facts hne hstr).1, (stripped_facts hne hstr).2⟩
  | t :: u :: ts, _, hts => by
    obtain ⟨hne, hstr⟩ := hts t (by simp)
    have ihu := joinNL_facts (u :: ts) (by simp)
      (fun x hx => hts x (List.mem_cons_of_mem t hx))
    have hJ : joinNL (t :: u :: ts) = t ++ '\n' :: joinNL (u :: ts) := rfl
    refine ⟨?_, ?_, ?_⟩
    · rw [hJ]
      simp
    · intro c hc
      rw [hJ, List.head?_append] at hc
      cases t with
      | nil => exact absurd rfl hne
      | cons c0 t0 =>
        rw [List.head?_cons] at hc
        have hc2 : some c0 = some c := hc
        injection hc2 with hc2
        subst hc2
        exact (stripped_facts hne hstr).1 c0 rfl
    · intro c hc
      rw [hJ, List.getLast?_append] at hc
      have hJne : joinNL (u :: ts) ≠ [] := ihu.1
      have hlastc : ('\n' :: joinNL (u :: ts)).getLast? = (joinNL (u :: ts)).getLast? := by
        rw [show ('\n' :: joinNL (u :: ts) : Str) = ['\n'] ++ joinNL (u :: ts) from rfl]
        rw [List.getLast?_append]
        cases hcc : (joinNL (u :: ts)).getLast? with
        | none =>
          exact absurd (by simpa using hcc) hJne
        | some z => rfl
      rw [hlastc] at hc
      cases hcc : (joinNL (u :: ts)).getLast? with
      | none => exact absurd (by simpa using hcc) hJne
      | some z =>
        rw [hcc] at hc
        have hc2 : some z = some c := hc
        injection hc2 with hc2
        subst hc2
        exact ihu.2.2 z hcc

/-- C3: when the paragraph-marker tier finds at least one boundary, span `i`
covers the paragraphs from boundary `i` (inclusive) to boundary `i+1`
(exclusive), the last span running to the end of the paragraph list; the span
text is the covered paragraph texts joined with newline and trimmed; the
header is the first line of that joined text; and the number of spans (hence
of output records) equals the number of detected boundaries.  The hypothesis
on `paras` holds for every loader output: `paragraphs_to_text` strips every
paragraph text and keeps only the non-empty ones. -/
theorem C3_span_construction (ps : List Pat) (paras : List Para) (arts : List Article)
    (hs : split_by_paragraph_markers paras ps = some arts)
    (hp : ∀ p ∈ paras, p.text ≠ [] ∧ pyStrip p.text = p.text) :
    arts.length = (boundaryIdxs ps paras).length ∧
    (∀ base source, (mkRecords arts base source).length = (boundaryIdxs ps paras).length) ∧
    (∀ i, i < (boundaryIdxs ps paras).length →
      arts.getD i defaultArticle =
        { header := firstLine (pyStrip (joinNL (pySlice (paras.map (fun p => p.text))
            ((boundaryIdxs ps paras).getD i 0)
            ((boundaryIdxs ps paras).getD (i + 1) paras.length)))),
          text := pyStrip (joinNL (pySlice (paras.map (fun p => p.text))
            ((boundaryIdxs ps paras).getD i 0)
            ((boundaryIdxs ps paras).getD (i + 1) paras.length))),
          meta := .paraSpan ((boundaryIdxs ps paras).getD i 0)
            ((boundaryIdxs ps paras).getD (i + 1) paras.length - 1) }) := by
  obtain ⟨hbs, rfl⟩ := split_para_eq hs
  set bs := boundaryIdxs ps paras with hbsdef
  have hlen : (bs.enum.map (mkParaSpan paras bs)).length = bs.length := by
    simp [List.enum_length]
  refine ⟨hlen, fun base source => by simp [mkRecords, List.enum_length], fun i hi => ?_⟩
  rw [enumMap_article_getD _ _ _ hi]
  set st := bs.getD i 0 with hst
  set en := bs.getD (i + 1) paras.length with hen
  have hstmem : st ∈ bs := by
    rw [hst, List.getD_eq_getElem _ _ hi]
    exact List.getElem_mem hi
  have hstlt : st < paras.length := boundaryIdxs_lt ps paras st (hbsdef ▸ hstmem)
  have hsten : st < en := by
    by_cases hi1 : i + 1 < bs.length
    · rw [hen, List.getD_eq_getElem _ _ hi1]
      have hpw : List.Pairwise (· < ·) bs := hbsdef ▸ boundaryIdxs_pairwise ps paras
      have hlt := List.pairwise_iff_get.mp hpw ⟨i, hi⟩ ⟨i + 1, hi1⟩ (by simp)
      rw [hst, List.getD_eq_getElem _ _ hi]
      simpa using hlt
    · rw [hen, List.getD_eq_default _ _ (by omega)]
      exact hstlt
  have hslice : pySlice (paras.map (fun p => p.text)) st en =
      (paras.getD st defaultPara).text ::
        ((paras.map (fun p => p.text)).drop (st + 1)).take (en - st - 1) := by
    unfold pySlice
    rw [List.drop_eq_getElem_cons (by rw [List.length_map]; exact hstlt)]
    rw [show en - st = (en - st - 1) + 1 from by omega]
    rw [List.take_succ_cons]
    rw [List.getElem_map, List.getD_eq_getElem _ _ hstlt]
    have harith : en - st - 1 + 1 - 1 = en - st - 1 := by omega
    rw [harith]
  have hmem_slice : ∀ x ∈ pySlice (paras.map (fun p => p.text)) st en,
      x ≠ [] ∧ pyStrip x = x := by
    intro x hx
    unfold pySlice at hx
    have hx1 := List.mem_of_mem_take hx
    have hx2 := List.mem_of_mem_drop hx1
    obtain ⟨p, hpmem, rfl⟩ := List.mem_map.mp hx2
    exact hp p hpmem
  have hslice_ne : pySlice (paras.map (fun p => p.text)) st en ≠ [] := by
    rw [hslice]
    simp
  have hJ := joinNL_facts _ hslice_ne hmem_slice
  have hstrip : pyStrip (joinNL (pySlice (paras.map (fun p => p.text)) st en)) =
      joinNL (pySlice (paras.map (fun p => p.text)) st en) :=
    pyStrip_eq_self_of hJ.2.1 hJ.2.2
  show mkParaSpan paras bs (i, st) = _
  simp only [mkParaSpan]
  rw [Article.mk.injEq]
  refine ⟨?_, rfl, rfl⟩
  rw [hstrip, hslice]
  cases hrest : ((paras.map (fun p => p.text)).drop (st + 1)).take (en - st - 1) with
  | nil => rfl
  | cons y ys => exact (firstLine_append_newline _ _).symm

def exParas3 : List Para :=
  [⟨("Статья 1.").toList, [], false⟩, ⟨("body").toList, [], false⟩,
   ⟨("Статья 2.").toList, [], false⟩]

def exArts3 : List Article :=
  [⟨("Статья 1.").toList, ("Статья 1.\nbody").toList, .paraSpan 0 1⟩,
   ⟨("Статья 2.").toList, ("Статья 2.").toList, .paraSpan 2 2⟩]

theorem C3_span_construction_witness :
    split_by_paragraph_markers exParas3 DEFAULT_PATTERNS = some exArts3 ∧
    (exArts3.length = (boundaryIdxs DEFAULT_PATTERNS exParas3).length ∧
     (∀ base source,
       (mkRecords exArts3 base source).length = (boundaryIdxs DEFAULT_PATTERNS exParas3).length) ∧
     (∀ i, i < (boundaryIdxs DEFAULT_PATTERNS exParas3).length →
       exArts3.getD i defaultArticle =
         { header := firstLine (pyStrip (joinNL (pySlice (exParas3.map (fun p => p.text))
             ((boundaryIdxs DEFAULT_PATTERNS exParas3).getD i 0)
             ((boundaryIdxs DEFAULT_PATTERNS exParas3).getD (i + 1) exParas3.length)))),
           text := pyStrip (joinNL (pySlice (exParas3.map (fun p => p.text))
             ((boundaryIdxs DEFAULT_PATTERNS exParas3).getD i 0)
             ((boundaryIdxs DEFAULT_PATTERNS exParas3).getD (i + 1) exParas3.length))),
           meta := .paraSpan ((boundaryIdxs DEFAULT_PATTERNS exParas3).getD i 0)
             ((boundaryIdxs DEFAULT_PATTERNS exParas3).getD (i + 1) exParas3.length - 1) })) :=
  ⟨by decide,
    C3_span_construction DEFAULT_PATTERNS exParas3 exArts3 (by decide) (by decide)⟩

end SplitArticles
